import Mathlib

/-!
Verification development for the Flux backend's text-processing core.

This file gives a shallow embedding, in Lean 4, of the pure text-transformation
functions of the repository:

* `backend/markdown_utils.py` — `split_markdown_by_sections` (section splitter
  with exact / core / fuzzy title matching);
* `backend/ai_service.py` — `_parse_structure_response` and the two planning
  entry points `plan_presentation_structure` / `plan_document_structure`;
* `backend/doc_generator.py` — `parse_markdown_line` (inline Markdown spans),
  the Markdown/legacy section walk of `create_docx`, `parse_slide_content`,
  and the slide construction of `create_pptx`.

Modelling conventions:

* Python strings are Lean `String`s; the helpers below (`pyStrip`, `pyLower`,
  `pySplitLines`, …) reproduce the Python string methods used by the code.
  `str.strip()` / `str.split()` are modelled over the ASCII whitespace set
  (all inputs appearing in the claims are ASCII); `str.lower()` / `.upper()`
  are modelled per-character (ASCII case mapping).
* Python `dict` is modelled as an association list with insert-or-update
  (`dictInsert`): an existing key keeps its position and gets the new value,
  a fresh key is appended.  This matches CPython's insertion-ordered dicts.
* Python `float` arithmetic in the fuzzy scores is modelled with `ℚ`.  At
  every comparison exercised by the claims the float and rational results
  agree (the scores involved are far from the decision boundaries).
* The external AI call and the `GEMINI_API_KEY` environment global are
  parameters of the embedding (`Option String` key, `Except String String`
  call outcome); the office-document libraries (python-docx / python-pptx)
  are modelled by an intermediate block/slide representation, with the one
  behaviour that matters to the claims made explicit: `Document.add_heading`
  adds a text run only when its text is non-empty, so `heading.runs[0]`
  raises `IndexError` on an empty heading text.
* A few scanners that are `while`-loops over an index in Python are written
  with an explicit fuel argument (always instantiated with the input length,
  which bounds the number of loop iterations); all definitions are
  executable and kernel-reducible.
-/

namespace Flux

/-! ## Python string primitives -/

/-- ASCII whitespace, the (ASCII part of the) set stripped by `str.strip()`
and used as separator by `str.split()`. -/
def isPyWs (c : Char) : Bool :=
  c = ' ' || c = '\t' || c = '\n' || c = '\r' || c = '\x0b' || c = '\x0c'

/-- List-level check that `pat` starts the list. -/
def leadsWith : List Char → List Char → Bool
  | [], _ => true
  | _ :: _, [] => false
  | p :: ps, c :: cs => p = c && leadsWith ps cs

/-- List-level substring occurrence check (Python `needle in hay`). -/
def containsSub (pat : List Char) : List Char → Bool
  | [] => leadsWith pat []
  | c :: t => leadsWith pat (c :: t) || containsSub pat t

/-- Python `pre + rest` prefix test: `s.startswith(pre)`. -/
def pyStartsWith (s pre : String) : Bool := leadsWith pre.data s.data

/-- Python `s.endswith(suf)`. -/
def pyEndsWith (s suf : String) : Bool := leadsWith suf.data.reverse s.data.reverse

/-- Python `needle in hay` (substring containment; true for the empty needle). -/
def pyIn (needle hay : String) : Bool := containsSub needle.data hay.data

/-- Python `s.strip()` restricted to ASCII whitespace. -/
def pyStrip (s : String) : String :=
  ⟨((s.data.dropWhile isPyWs).reverse.dropWhile isPyWs).reverse⟩

/-- Python `s.lstrip(chars)`: drop leading characters belonging to `chars`. -/
def pyLstrip (chars : List Char) (s : String) : String :=
  ⟨s.data.dropWhile (fun c => chars.contains c)⟩

/-- Python `s.lower()` (ASCII case mapping). -/
def pyLower (s : String) : String := ⟨s.data.map Char.toLower⟩

/-- Python `s.upper()` (ASCII case mapping). -/
def pyUpper (s : String) : String := ⟨s.data.map Char.toUpper⟩

/-- Split a character list at every occurrence of the character `sep`
(Python `s.split(sep)` for a one-character separator: empty pieces kept). -/
def splitOnChar (sep : Char) : List Char → List (List Char)
  | [] => [[]]
  | c :: t =>
    match splitOnChar sep t with
    | [] => [[c]]
    | h :: rest => if c = sep then [] :: h :: rest else (c :: h) :: rest

/-- Python `s.split('\n')`. -/
def pySplitLines (s : String) : List String :=
  (splitOnChar '\n' s.data).map String.mk

/-- Python `s.split('|')`. -/
def pySplitBar (s : String) : List String :=
  (splitOnChar '|' s.data).map String.mk

/-- Python `s.split('\n\n')`: split on each non-overlapping, left-to-right
occurrence of two consecutive newlines. -/
def splitOnNlNl : List Char → List (List Char)
  | '\n' :: '\n' :: t => [] :: splitOnNlNl t
  | c :: t =>
    match splitOnNlNl t with
    | [] => [[c]]
    | h :: rest => (c :: h) :: rest
  | [] => [[]]

/-- Python `s.split()` (no argument): split on whitespace runs, dropping
empty pieces. -/
def splitWsAux : List Char → List Char → List String
  | [], cur => if cur.isEmpty then [] else [⟨cur.reverse⟩]
  | c :: t, cur =>
    if isPyWs c then
      if cur.isEmpty then splitWsAux t [] else ⟨cur.reverse⟩ :: splitWsAux t []
    else
      splitWsAux t (c :: cur)

/-- Python `s.split()` on a string. -/
def pySplitWs (s : String) : List String := splitWsAux s.data []

/-- Python slice `s[a:-b]` for non-negative `a`, `b` (clamped like Python). -/
def pySlice (s : String) (a b : Nat) : String :=
  ⟨(s.data.drop a).take (s.data.length - a - b)⟩

/-- Python `s[n:]`. -/
def pyDrop (s : String) (n : Nat) : String := ⟨s.data.drop n⟩

/-! ## Python `dict` as an insertion-ordered association list -/

/-- CPython `dict` assignment `d[k] = v`: update in place when the key is
present (keeping its position), append otherwise. -/
def dictInsert (l : List (String × String)) (k v : String) : List (String × String) :=
  match l with
  | [] => [(k, v)]
  | (k', v') :: t => if k' = k then (k', v) :: t else (k', v') :: dictInsert t k v

/-- CPython `k in d` / `d[k]` lookup. -/
def dictGet (l : List (String × String)) (k : String) : Option String :=
  match l with
  | [] => none
  | (k', v') :: t => if k' = k then some v' else dictGet t k

/-! ## `markdown_utils.split_markdown_by_sections` (lines 47–131)

The regex split `re.split(r'^## (.+?)$', full_markdown, flags=re.MULTILINE)`
partitions the document at lines of the shape `"## " ++ t` with `t` non-empty;
each heading's chunk runs until the next such line (or the end), and the
working map `current_sections` maps `t.strip().lower()` to
`"## " ++ t.strip() ++ "\n\n" ++ body.strip()`. -/

/-- A line the Python regex `^## (.+?)$` matches: literally `"## "` followed
by at least one (non-newline) character.  Lines are newline-free here. -/
def isHeadingLine (l : String) : Bool :=
  pyStartsWith l "## " && decide (3 < l.data.length)

/-- The regex group of a heading line: everything after `"## "`. -/
def headingGroup (l : String) : String := pyDrop l 3

/-- The reconstructed chunk stored in the working map for a heading whose
regex group is `traw` and whose body lines (in order) are `body`. -/
def mkChunk (traw : String) (body : List String) : String :=
  "## " ++ pyStrip traw ++ "\n\n" ++ pyStrip (String.intercalate "\n" body)

/-- Walk of the document's lines building the working map `current_sections`.
State: the pending heading group and its reversed body lines (none before the
first heading — that prefix is `parts[0]` and is discarded). -/
def collectSections : List String → Option (String × List String) →
    List (String × String) → List (String × String)
  | [], none, acc => acc
  | [], some (t, rb), acc => dictInsert acc (pyLower (pyStrip t)) (mkChunk t rb.reverse)
  | l :: ls, st, acc =>
    if isHeadingLine l then
      match st with
      | none => collectSections ls (some (headingGroup l, [])) acc
      | some (t, rb) =>
          collectSections ls (some (headingGroup l, []))
            (dictInsert acc (pyLower (pyStrip t)) (mkChunk t rb.reverse))
    else
      match st with
      | none => collectSections ls none acc
      | some (t, rb) => collectSections ls (some (t, l :: rb)) acc

/-- `current_sections`: lowercased stripped heading text ↦ reconstructed chunk. -/
def currentSections (full_markdown : String) : List (String × String) :=
  collectSections (pySplitLines full_markdown) none []

/-- The same walk as `collectSections`, but recording every
`(section_title.lower(), chunk)` pair in document order instead of
dict-assigning it: this is the exact sequence of assignments the loop at
lines 71–75 performs (one per regex heading match, duplicates included,
before the dict collapses equal keys).  `collectSections` is the fold of
`dictInsert` over this sequence (`collect_eq_foldInsert` below). -/
def collectBlocksList : List String → Option (String × List String) →
    List (String × String) → List (String × String)
  | [], none, acc => acc
  | [], some (t, rb), acc => acc ++ [(pyLower (pyStrip t), mkChunk t rb.reverse)]
  | l :: ls, st, acc =>
    if isHeadingLine l then
      match st with
      | none => collectBlocksList ls (some (headingGroup l, [])) acc
      | some (t, rb) =>
          collectBlocksList ls (some (headingGroup l, []))
            (acc ++ [(pyLower (pyStrip t), mkChunk t rb.reverse)])
    else
      match st with
      | none => collectBlocksList ls none acc
      | some (t, rb) => collectBlocksList ls (some (t, l :: rb)) acc

/-- The document's `(lowercased stripped heading, chunk)` pairs in order of
occurrence, duplicates included. -/
def headingBlocks (full_markdown : String) : List (String × String) :=
  collectBlocksList (pySplitLines full_markdown) none []

/-- One step of the scan for `re.sub(r'\s*\([^)]*\)\s*', '', expected)`:
match the pattern anchored at the current position (greedy `\s*`, a literal
`(`, greedy `[^)]*`, a literal `)`, greedy `\s*`), returning the remainder. -/
def parenMatchAt (cs : List Char) : Option (List Char) :=
  match cs.dropWhile isPyWs with
  | '(' :: t =>
    match t.dropWhile (fun c => !(c = ')')) with
    | ')' :: r => some (r.dropWhile isPyWs)
    | _ => none
  | _ => none

/-- Fueled scan for `re.sub(r'\s*\([^)]*\)\s*', '', s)`: leftmost matches are
deleted, other characters kept.  Each step consumes at least one character,
so fuel `cs.length` suffices (on fuel exhaustion the rest is kept verbatim,
a case never reached at that fuel). -/
def stripParensAux : Nat → List Char → List Char
  | 0, cs => cs
  | fuel + 1, cs =>
    match parenMatchAt cs with
    | some rest => stripParensAux fuel rest
    | none =>
      match cs with
      | [] => []
      | c :: t => c :: stripParensAux fuel t

/-- `re.sub(r'\s*\([^)]*\)\s*', '', expected)` (line 81). -/
def stripParens (s : String) : String :=
  ⟨stripParensAux s.data.length s.data⟩

/-- The distinct whitespace-separated words of a string
(Python `set(s.split())`, represented as a deduplicated list). -/
def wordSet (s : String) : List String := (pySplitWs s).dedup

/-- `len(expected_words & parsed_words)`: size of the word-set intersection. -/
def commonWordCount (a b : String) : Nat :=
  ((wordSet a).filter (fun w => (wordSet b).contains w)).length

/-- The fuzzy match score of lines 97–115, for a candidate key `parsed_title`
against `expected_core_lower` (both already lowercased).  Python computes in
`float`; the model uses `ℚ`. -/
def fuzzyScore (expected_core_lower parsed_title : String) : ℚ :=
  if pyIn parsed_title expected_core_lower then
    (parsed_title.data.length : ℚ) / (expected_core_lower.data.length : ℚ) * 100
  else if pyIn expected_core_lower parsed_title then
    (expected_core_lower.data.length : ℚ) / (parsed_title.data.length : ℚ) * 80
  else if 0 < commonWordCount expected_core_lower parsed_title then
    (commonWordCount expected_core_lower parsed_title : ℚ) /
      (max (wordSet expected_core_lower).length (wordSet parsed_title).length : ℚ) * 60
  else 0

/-- The best-candidate fold of lines 94–119: strict improvement only, so the
first candidate reaching the maximal score is kept. -/
def bestFold (ecl : String) : List (String × String) → ℚ × Option (String × String) →
    ℚ × Option (String × String)
  | [], st => st
  | kv :: t, (bs, bm) =>
    let sc := fuzzyScore ecl kv.1
    if bs < sc then bestFold ecl t (sc, some kv) else bestFold ecl t (bs, bm)

/-- The placeholder chunk of line 127. -/
def placeholderChunk (expected_core : String) : String :=
  "## " ++ expected_core ++ "\n\n*Content for this section was not generated.*"

/-- The per-title match step (lines 78–128): exact match on the full lowercased
title, else on the lowercased core title, else the fuzzy search with
acceptance threshold `40`, else the placeholder chunk. -/
def matchSection (cur : List (String × String)) (expected : String) : String :=
  let expected_core := pyStrip (stripParens expected)
  let expected_lower := pyLower expected
  let expected_core_lower := pyLower expected_core
  match dictGet cur expected_lower with
  | some v => v
  | none =>
    match dictGet cur expected_core_lower with
    | some v => v
    | none =>
      match bestFold expected_core_lower cur (0, none) with
      | (bs, some m) => if 40 < bs then m.2 else placeholderChunk expected_core
      | (_, none) => placeholderChunk expected_core

/-- `split_markdown_by_sections(full_markdown, expected_sections)`
(lines 47–131): the result dict maps each expected title (as given) to its
matched or placeholder chunk. -/
def split_markdown_by_sections (full_markdown : String) (expected_sections : List String) :
    List (String × String) :=
  expected_sections.foldl
    (fun acc e => dictInsert acc e (matchSection (currentSections full_markdown) e)) []

/-! ## `ai_service._parse_structure_response` (lines 423–462) -/

/-- Python `s.replace(pat, rep)`: replace every non-overlapping occurrence,
left to right.  Fueled scan; each step consumes at least one character when
`pat` is non-empty (every caller passes a non-empty pattern), so fuel
`cs.length` suffices. -/
def replaceAllAux : Nat → List Char → List Char → List Char → List Char
  | 0, _, _, cs => cs
  | fuel + 1, pat, rep, cs =>
    if leadsWith pat cs then rep ++ replaceAllAux fuel pat rep (cs.drop pat.length)
    else
      match cs with
      | [] => []
      | c :: t => c :: replaceAllAux fuel pat rep t

/-- Python `s.replace(pat, rep)`. -/
def pyReplace (s pat rep : String) : String :=
  ⟨replaceAllAux s.data.length pat.data rep.data s.data⟩

/-- The parsed outline: the Python function returns the dict
`{"title": title, content_type: items}`; the dynamic second key always holds
the item list, recorded here as `items`. -/
structure Outline where
  title : String
  items : List String
deriving DecidableEq, Repr

/-- The line scan of `_parse_structure_response` (lines 438–449).  State:
title so far, items so far, and the `in_items_section` flag. -/
def structScan (content_type : String) :
    List String → String → List String → Bool → String × List String
  | [], title, items, _ => (title, items)
  | raw :: ls, title, items, inItems =>
    let line := pyStrip raw
    if pyStartsWith line "TITLE:" then
      structScan content_type ls (pyStrip (pyReplace line "TITLE:" "")) items inItems
    else if pyStartsWith (pyUpper line) (pyUpper content_type ++ ":") then
      structScan content_type ls title items true
    else if inItems && pyStartsWith line "-" then
      let item := pyStrip (pyLstrip ['-', ' '] line)
      if item = "" then structScan content_type ls title items inItems
      else structScan content_type ls title (items ++ [item]) inItems
    else structScan content_type ls title items inItems

/-- Default title of line 453. -/
def defaultTitle (content_type : String) : String :=
  if content_type = "slides" then "Untitled Presentation" else "Untitled Document"

/-- Default item list of lines 455–460. -/
def defaultItems (content_type : String) : List String :=
  if content_type = "slides" then ["Opening", "Main Content", "Closing"]
  else ["Introduction", "Main Body", "Conclusion"]

/-- `_parse_structure_response(text, content_type)` (lines 423–462): scan all
lines, then substitute the fixed defaults for an empty title or empty item
list.  Every operation used is total, so the embedding is a total function
(the Python function cannot raise). -/
def parse_structure_response (text content_type : String) : Outline :=
  let scanned := structScan content_type (pySplitLines text) "" [] false
  ⟨if scanned.1 = "" then defaultTitle content_type else scanned.1,
   if scanned.2 = [] then defaultItems content_type else scanned.2⟩

/-! ## `ai_service.plan_presentation_structure` / `plan_document_structure`
(lines 279–304 and 350–377)

The `GEMINI_API_KEY` global and the outcome of the model call
(`_generate_content_sync`, which re-raises every exception) are parameters:
`apiKey : Option String` and `call : Except String String` (an `Except.error`
carries `str(e)` of the raised exception — rate-limit errors included). -/

/-- The Python result dict `Dict[str, any]`: each key may be absent. -/
structure PlanResult where
  title : Option String
  items : Option (List String)
  error : Option String
deriving DecidableEq, Repr

/-- `APIError.no_api_key()` (ai_service.py line 35). -/
def no_api_key_message : String :=
  "⚠️ Error: GEMINI_API_KEY not configured. Please set your API key in the .env file."

/-- `plan_presentation_structure(user_prompt)` (lines 279–304).  With no API
key it returns `{"error": APIError.no_api_key()}` — no title, no slides.
On a successful call it returns the parsed structure; on any exception it
returns the fixed fallback structure with the error string attached. -/
def plan_presentation_structure (apiKey : Option String)
    (call : Except String String) : PlanResult :=
  match apiKey with
  | none => ⟨none, none, some no_api_key_message⟩
  | some _ =>
    match call with
    | Except.ok text =>
      let o := parse_structure_response text "slides"
      ⟨some o.title, some o.items, none⟩
    | Except.error e =>
      ⟨some "Untitled Presentation",
       some ["Opening Slide", "Main Content", "Key Takeaways", "Closing"],
       some e⟩

/-- `plan_document_structure(user_prompt)` (lines 350–377), same shape with
the document defaults. -/
def plan_document_structure (apiKey : Option String)
    (call : Except String String) : PlanResult :=
  match apiKey with
  | none => ⟨none, none, some no_api_key_message⟩
  | some _ =>
    match call with
    | Except.ok text =>
      let o := parse_structure_response text "sections"
      ⟨some o.title, some o.items, none⟩
    | Except.error e =>
      ⟨some "Untitled Document",
       some ["Introduction", "Background", "Main Discussion", "Analysis", "Conclusion"],
       some e⟩

/-! ## `doc_generator.parse_markdown_line` (lines 8–54)

`re.split(r'(\*\*.*?\*\*|\*.*?\*|`.*?`|\[.*?\]\(.*?\))', text)` is modelled
with an explicit scanner: at each position the four alternatives are tried
in the regex's order; `.*?` is minimal and never crosses a newline. -/

/-- Minimal-length close for a pattern `.*?c`: split `cs` as
`inner ++ [c] ++ rest` at the first occurrence of `c`, failing on a newline
or the end of input. -/
def closeBy1 (c : Char) : List Char → Option (List Char × List Char)
  | [] => none
  | a :: t =>
    if a = c then some ([], t)
    else if a = '\n' then none
    else
      match closeBy1 c t with
      | some (i, r) => some (a :: i, r)
      | none => none

/-- Minimal-length close for a pattern `.*?c₁c₂`: split at the first
occurrence of the two adjacent characters `c₁ c₂`. -/
def closePair (c1 c2 : Char) : List Char → Option (List Char × List Char)
  | [] => none
  | [_] => none
  | a :: b :: t =>
    if a = c1 && b = c2 then some ([], t)
    else if a = '\n' then none
    else
      match closePair c1 c2 (b :: t) with
      | some (i, r) => some (a :: i, r)
      | none => none

/-- Alternative 1, `\*\*.*?\*\*`. -/
def tokAlt1 : List Char → Option (List Char × List Char)
  | '*' :: '*' :: t =>
    match closePair '*' '*' t with
    | some (inner, rest) => some ('*' :: '*' :: (inner ++ ['*', '*']), rest)
    | none => none
  | _ => none

/-- Alternative 2, `\*.*?\*`. -/
def tokAlt2 : List Char → Option (List Char × List Char)
  | '*' :: t =>
    match closeBy1 '*' t with
    | some (inner, rest) => some ('*' :: (inner ++ ['*']), rest)
    | none => none
  | _ => none

/-- Alternative 3, `` `.*?` ``. -/
def tokAlt3 : List Char → Option (List Char × List Char)
  | '`' :: t =>
    match closeBy1 '`' t with
    | some (inner, rest) => some ('`' :: (inner ++ ['`']), rest)
    | none => none
  | _ => none

/-- Alternative 4, `\[.*?\]\(.*?\)`. -/
def tokAlt4 : List Char → Option (List Char × List Char)
  | '[' :: t =>
    match closePair ']' '(' t with
    | some (txt, rest1) =>
      match closeBy1 ')' rest1 with
      | some (url, rest2) =>
        some ('[' :: (txt ++ [']', '('] ++ url ++ [')']), rest2)
      | none => none
    | none => none
  | _ => none

/-- A match of the whole alternation at the current position (the matched
lexeme and the remainder), alternatives tried in the regex's order. -/
def tokenAt (cs : List Char) : Option (List Char × List Char) :=
  match tokAlt1 cs with
  | some r => some r
  | none =>
    match tokAlt2 cs with
    | some r => some r
    | none =>
      match tokAlt3 cs with
      | some r => some r
      | none => tokAlt4 cs

/-- The `re.split` scan: alternating unmatched gaps and matched lexemes
(gaps may be empty, exactly as `re.split` produces them).  Every matched
lexeme is non-empty, so fuel `cs.length` suffices. -/
def scanParts : Nat → List Char → List Char → List String → List String
  | 0, cs, gapRev, acc => acc ++ [⟨gapRev.reverse ++ cs⟩]
  | _ + 1, [], gapRev, acc => acc ++ [⟨gapRev.reverse⟩]
  | fuel + 1, c :: t, gapRev, acc =>
    match tokenAt (c :: t) with
    | some (tok, rest) => scanParts fuel rest [] (acc ++ [⟨gapRev.reverse⟩, ⟨tok⟩])
    | none => scanParts fuel t (c :: gapRev) acc

/-- `re.split(pattern, text)` of line 19. -/
def reSplitSpans (text : String) : List String :=
  scanParts text.data.length text.data [] []

/-- A formatted run added to the docx paragraph. -/
inductive Run where
  | plain (text : String)
  | bold (text : String)
  | italic (text : String)
  | code (text : String)
  | link (text : String)
deriving DecidableEq, Repr

/-- `re.match(r'\[(.*?)\]\((.*?)\)', part)` (line 46): anchored at the start
of the part, minimal groups. -/
def linkMatch (p : String) : Option (String × String) :=
  match p.data with
  | '[' :: t =>
    match closePair ']' '(' t with
    | some (txt, rest1) =>
      match closeBy1 ')' rest1 with
      | some (url, _) => some (⟨txt⟩, ⟨url⟩)
      | none => none
    | none => none
  | _ => none

/-- The classification of one part (lines 21–54).  An empty part is skipped;
the link branch adds no run at all when the anchored match fails. -/
def runsOfPart (p : String) : List Run :=
  if p = "" then []
  else if pyStartsWith p "**" && pyEndsWith p "**" then [Run.bold (pySlice p 2 2)]
  else if pyStartsWith p "*" && pyEndsWith p "*" && !pyStartsWith p "**" then
    [Run.italic (pySlice p 1 1)]
  else if pyStartsWith p "`" && pyEndsWith p "`" then [Run.code (pySlice p 1 1)]
  else if pyStartsWith p "[" && pyIn "](" p then
    match linkMatch p with
    | some (txt, _) => [Run.link txt]
    | none => []
  else [Run.plain p]

/-- `parse_markdown_line(paragraph, text)` (lines 8–54): the runs appended to
the paragraph, in order. -/
def parse_markdown_line (text : String) : List Run :=
  ((reSplitSpans text).map runsOfPart).flatten

/-! ## `doc_generator.create_docx` — per-section rendering (lines 165–341)

The docx output is modelled as a list of blocks; fixed fonts, colours,
indents and spacing are layout attributes with no bearing on the claims and
are not part of the block data.  The title page and table-of-contents
prologue (lines 62–163) only ever adds runs with fixed non-empty texts and
cannot fail; it is elided. -/

/-- A table cell: its text, and whether the cell's runs were made bold
(lines 284–291 set bold on every run of each header cell). -/
structure TableCell where
  text : String
  bold : Bool
deriving DecidableEq, Repr

/-- A docx block produced by the section walk. -/
inductive Block where
  | heading (level : Nat) (text : String)
  | bullet (runs : List Run)
  | ordered (runs : List Run)
  | quote (runs : List Run)
  | table (header : List TableCell) (data : List (List String))
  | para (runs : List Run)
  | spacer
  | legacyBullet (text : String)
  | legacyPara (text : String)
deriving DecidableEq, Repr

/-- `re.match(r'^\d+\.\s', line)` (line 227) together with the removal of the
matched prefix (line 228): one-or-more digits, a dot, one whitespace. -/
def orderedListMatch (cs : List Char) : Option (List Char) :=
  let ds := cs.takeWhile Char.isDigit
  if ds.isEmpty then none
  else
    match cs.drop ds.length with
    | '.' :: w :: rest => if isPyWs w then some rest else none
    | _ => none

/-- `row.split('|')[1:-1]` with each cell stripped (lines 268, 273). -/
def tableCells (row : String) : List String :=
  (((pySplitBar row).drop 1).dropLast).map pyStrip

/-- The Markdown branch of the section walk (lines 172–311): one pass over
the lines with an index cursor; the table branch consumes the contiguous run
of `|`-prefixed lines.  Each step consumes at least one line, so fuel
`lines.length` suffices. -/
def processMdLines : Nat → List String → List Block
  | 0, _ => []
  | _ + 1, [] => []
  | fuel + 1, raw :: rest =>
    let line := pyStrip raw
    if line = "" then processMdLines fuel rest
    else if pyStartsWith line "## " then
      Block.heading 1 (pyStrip (pyDrop line 3)) :: processMdLines fuel rest
    else if pyStartsWith line "### " then
      Block.heading 2 (pyStrip (pyDrop line 4)) :: processMdLines fuel rest
    else if pyStartsWith line "#### " then
      Block.heading 3 (pyStrip (pyDrop line 5)) :: processMdLines fuel rest
    else if pyStartsWith line "- " || pyStartsWith line "* " then
      Block.bullet (parse_markdown_line (pyStrip (pyDrop line 2))) :: processMdLines fuel rest
    else if (orderedListMatch line.data).isSome then
      Block.ordered (parse_markdown_line (pyStrip ⟨(orderedListMatch line.data).getD []⟩)) ::
        processMdLines fuel rest
    else if pyStartsWith line "> " then
      Block.quote (parse_markdown_line (pyStrip (pyDrop line 2))) :: processMdLines fuel rest
    else if pyStartsWith line "|" && pyIn "|" (pyDrop line 1) then
      let tRows := line :: ((rest.map pyStrip).takeWhile (fun l => pyStartsWith l "|"))
      let rest' := rest.dropWhile (fun r => pyStartsWith (pyStrip r) "|")
      (if 2 ≤ tRows.length then
        let header_cells := tableCells line
        let data_rows := (tRows.drop 2).filterMap (fun r =>
          let cs := tableCells r
          if cs ≠ [] && cs.any (fun c => c ≠ "") then some cs else none)
        if header_cells ≠ [] && data_rows ≠ [] then
          [Block.table (header_cells.map (fun t => ⟨t, true⟩)) data_rows, Block.spacer]
        else []
      else []) ++ processMdLines fuel rest'
    else
      Block.para (parse_markdown_line line) :: processMdLines fuel rest

/-- The Markdown-detection test of line 169. -/
def is_markdown (content : String) : Bool :=
  pyIn "##" content || pyIn "**" content || pyIn "*" content

/-- One blank-line-delimited legacy paragraph starting with a bullet marker
(lines 326–335). -/
def legacyBulletLines (para : String) : List Block :=
  ((pySplitLines para).map pyStrip).filterMap (fun line =>
    if line = "" then none
    else
      let b := pyStrip (pyLstrip ['•', '-', '*'] line)
      if b = "" then none else some (Block.legacyBullet b))

/-- The legacy body walk (lines 322–340). -/
def legacyBody (content : String) : List Block :=
  (((splitOnNlNl content.data).map (fun cs => pyStrip ⟨cs⟩)).map (fun p =>
    if p = "" then []
    else if pyStartsWith p "•" || pyStartsWith p "-" || pyStartsWith p "*" then
      legacyBulletLines p
    else [Block.legacyPara p])).flatten

/-- One section of the `create_docx` loop (lines 165–341).  The legacy branch
calls `doc.add_heading(section.title, level=1)` and then reads
`heading.runs[0]` with no guard (line 315); python-docx's `add_heading` adds
a run only when its text is non-empty, so an empty section title raises
`IndexError` there.  All other operations of the walk are total. -/
def render_section (title content : String) : Except String (List Block) :=
  let content := if content = "" then "No content generated yet." else content
  if is_markdown content then
    Except.ok (processMdLines (pySplitLines content).length (pySplitLines content))
  else
    if title = "" then Except.error "IndexError: list index out of range"
    else Except.ok (Block.heading 1 title :: legacyBody content)

/-- The whole section loop of `create_docx`, over sections already sorted by
`orderIndex` (each section as `(title, content)`).  The first raised
exception aborts the document build, as in Python. -/
def create_docx_body : List (String × String) → Except String (List Block)
  | [] => Except.ok []
  | (t, c) :: rest => do
    let bs ← render_section t c
    let more ← create_docx_body rest
    Except.ok (bs ++ more)

/-! ## `doc_generator.parse_slide_content` (lines 347–385) and the slide
construction of `create_pptx` (lines 414–549) -/

/-- The parsed structured slide content. -/
structure SlideParse where
  title : String
  bullets : List String
  image_suggestion : String
deriving DecidableEq, Repr

/-- The speaker-note keywords of line 362. -/
def speaker_note_keywords : List String :=
  ["SPEAKER_NOTES:", "NOTES:", "SPEAKER:", "NOTE:"]

/-- The line scan of `parse_slide_content` (lines 364–383); the Boolean is
the `in_content_section` flag. -/
def slideScan : List String → SlideParse → Bool → SlideParse
  | [], st, _ => st
  | raw :: ls, st, inContent =>
    let line := pyStrip raw
    if speaker_note_keywords.any (fun kw => pyStartsWith (pyUpper line) kw) then
      slideScan ls st false
    else if pyStartsWith line "TITLE:" then
      slideScan ls ⟨pyStrip (pyReplace line "TITLE:" ""), st.bullets, st.image_suggestion⟩
        inContent
    else if pyStartsWith line "CONTENT:" then
      slideScan ls st true
    else if pyStartsWith line "IMAGE_SUGGESTION:" then
      slideScan ls ⟨st.title, st.bullets, pyStrip (pyReplace line "IMAGE_SUGGESTION:" "")⟩
        false
    else if inContent && line ≠ "" then
      let b := pyStrip (pyLstrip ['•', '-', '*'] line)
      if b = "" then slideScan ls st inContent
      else slideScan ls ⟨st.title, st.bullets ++ [b], st.image_suggestion⟩ inContent
    else slideScan ls st inContent

/-- `parse_slide_content(content)` (lines 347–385). -/
def parse_slide_content (content : String) : SlideParse :=
  if content = "" then ⟨"", [], ""⟩
  else slideScan (pySplitLines content) ⟨"", [], ""⟩ false

/-- One content slide of `create_pptx`: its title textbox text, bullets, and
layout branch. -/
structure Slide where
  title : String
  bullets : List String
  image_suggestion : String
  two_column : Bool
deriving DecidableEq, Repr

/-- One iteration of the content-slide loop (lines 415–549): the title
textbox gets `parsed['title'] or section.title` (line 428: the section's
stored title whenever the parsed title is the empty string), and the layout
branches on a non-empty image suggestion (line 437). -/
def make_slide (section_title content : String) : Slide :=
  let parsed := parse_slide_content content
  ⟨if parsed.title = "" then section_title else parsed.title,
   parsed.bullets, parsed.image_suggestion, parsed.image_suggestion ≠ ""⟩

/-- The content slides of `create_pptx`, over sections already sorted by
`orderIndex` (the fixed title slide is elided; each `parse_slide_content`
call receives `section.content or ""`). -/
def create_pptx_slides (sections : List (String × String)) : List Slide :=
  sections.map (fun s => make_slide s.1 s.2)

/-! ## Auxiliary definitions used by the claim statements -/

/-- The spec's wording of the word-overlap score (§4.2 step 4c):
the size of the word overlap over the larger word-set size, times 60.
This definition follows the spec's words; `fuzzyScore` follows the code. -/
def wordOverlapScoreSpec (core cand : String) : ℚ :=
  (commonWordCount core cand : ℚ) /
    (max (wordSet core).length (wordSet cand).length : ℚ) * 60

/-- Whether a run carries a style (everything except a plain run). -/
def isStyled : Run → Bool
  | Run.plain _ => false
  | _ => true

/-- The visible text of a run. -/
def runText : Run → String
  | Run.plain t => t
  | Run.bold t => t
  | Run.italic t => t
  | Run.code t => t
  | Run.link t => t

/-- Whether a string still contains an inline-Markdown marker character. -/
def hasMarkerChar (s : String) : Bool :=
  s.data.any (fun c => c = '*' || c = '`' || c = '[' || c = ']' || c = '(' || c = ')')

/-- Whether a block is a rendered table. -/
def isTableBlock : Block → Bool
  | Block.table _ _ => true
  | _ => false

/-! ## Helper lemmas: the `dict` model -/

theorem dictGet_dictInsert (l : List (String × String)) (k v q : String) :
    dictGet (dictInsert l k v) q = if q = k then some v else dictGet l q := by
  induction l with
  | nil =>
    by_cases h : q = k
    · subst h
      simp [dictInsert, dictGet]
    · have h' : ¬ k = q := fun e => h e.symm
      simp [dictInsert, dictGet, h, h']
  | cons p t ih =>
    obtain ⟨k', v'⟩ := p
    by_cases hk : k' = k
    · subst hk
      by_cases hq : q = k'
      · subst hq
        simp [dictInsert, dictGet]
      · have hq' : ¬ k' = q := fun e => hq e.symm
        simp [dictInsert, dictGet, hq, hq']
    · by_cases hq : k' = q
      · subst hq
        have hq' : ¬ k' = k := hk
        have hq'' : ¬ k' = k := hk
        simp [dictInsert, dictGet, hk, fun e : k' = k => hk e]
      · simp [dictInsert, dictGet, hk, hq, ih]

theorem dictInsert_length (l : List (String × String)) (k v : String) :
    (dictInsert l k v).length =
      if (dictGet l k).isSome then l.length else l.length + 1 := by
  induction l with
  | nil => simp [dictInsert, dictGet]
  | cons p t ih =>
    obtain ⟨k', v'⟩ := p
    by_cases hk : k' = k
    · simp [dictInsert, dictGet, hk]
    · simp only [dictInsert, if_neg hk, List.length_cons, ih, dictGet]
      by_cases hs : (dictGet t k).isSome
      · simp [hs]
      · simp [hs]

theorem mem_dictInsert (l : List (String × String)) (k v : String) (p : String × String)
    (h : p ∈ dictInsert l k v) : p ∈ l ∨ p = (k, v) := by
  induction l with
  | nil =>
    simp only [dictInsert, List.mem_singleton] at h
    exact Or.inr h
  | cons q t ih =>
    obtain ⟨k', v'⟩ := q
    by_cases hk : k' = k
    · simp only [dictInsert, if_pos hk, List.mem_cons] at h
      rcases h with h | h
      · right
        rw [h, hk]
      · left
        exact List.mem_cons_of_mem _ h
    · simp only [dictInsert, if_neg hk, List.mem_cons] at h
      rcases h with h | h
      · left
        rw [h]
        exact List.mem_cons_self _ _
      · rcases ih h with h' | h'
        · left
          exact List.mem_cons_of_mem _ h'
        · right
          exact h'

theorem dictGet_mem (l : List (String × String)) (q v : String)
    (h : dictGet l q = some v) : (q, v) ∈ l := by
  induction l with
  | nil => simp [dictGet] at h
  | cons p t ih =>
    obtain ⟨k', v'⟩ := p
    by_cases hk : k' = q
    · subst hk
      simp only [dictGet, if_true, eq_self_iff_true, if_pos, Option.some.injEq] at h
      have h' : v' = v := by simpa using h
      rw [← h']
      exact List.mem_cons_self _ _
    · simp only [dictGet, if_neg hk] at h
      exact List.mem_cons_of_mem _ (ih h)

/-! ## Helper lemmas: chunk shape -/

theorem leadsWith_self_append (p r : List Char) : leadsWith p (p ++ r) = true := by
  induction p with
  | nil => rfl
  | cons c ps ih => simp [leadsWith, ih]

theorem pyStartsWith_append (pre rest : String) : pyStartsWith (pre ++ rest) pre = true := by
  unfold pyStartsWith
  rw [String.data_append]
  exact leadsWith_self_append _ _

theorem startsHH_ne_empty (s : String) (h : pyStartsWith s "## " = true) : s ≠ "" := by
  intro he
  rw [he] at h
  exact absurd h (by decide)

theorem mkChunk_startsWith (traw : String) (body : List String) :
    pyStartsWith (mkChunk traw body) "## " = true := by
  unfold mkChunk
  exact pyStartsWith_append _ _

theorem placeholderChunk_startsWith (core : String) :
    pyStartsWith (placeholderChunk core) "## " = true := by
  unfold placeholderChunk
  exact pyStartsWith_append _ _

/-! ## Helper lemmas: the working map `current_sections` -/

theorem collect_values (P : String → Prop) (hmk : ∀ t b, P (mkChunk t b)) :
    ∀ (lines : List String) (st : Option (String × List String))
      (acc : List (String × String)),
      (∀ p ∈ acc, P p.2) → ∀ p ∈ collectSections lines st acc, P p.2 := by
  intro lines
  induction lines with
  | nil =>
    intro st acc hacc p hp
    cases st with
    | none => exact hacc p hp
    | some tb =>
      obtain ⟨t, rb⟩ := tb
      simp only [collectSections] at hp
      rcases mem_dictInsert _ _ _ _ hp with h | h
      · exact hacc p h
      · rw [h]
        exact hmk _ _
  | cons l ls ih =>
    intro st acc hacc p hp
    by_cases hL : isHeadingLine l
    · cases st with
      | none =>
        simp only [collectSections, if_pos hL] at hp
        exact ih _ _ hacc p hp
      | some tb =>
        obtain ⟨t, rb⟩ := tb
        simp only [collectSections, if_pos hL] at hp
        refine ih _ _ ?_ p hp
        intro q hq
        rcases mem_dictInsert _ _ _ _ hq with h | h
        · exact hacc q h
        · rw [h]
          exact hmk _ _
    · cases st with
      | none =>
        simp only [collectSections, if_neg hL] at hp
        exact ih _ _ hacc p hp
      | some tb =>
        obtain ⟨t, rb⟩ := tb
        simp only [collectSections, if_neg hL] at hp
        exact ih _ _ hacc p hp

theorem currentSections_values (doc : String) :
    ∀ p ∈ currentSections doc, pyStartsWith p.2 "## " = true := by
  intro p hp
  exact collect_values (fun v => pyStartsWith v "## " = true)
    (fun t b => mkChunk_startsWith t b) _ none [] (by simp) p hp

theorem dictInsert_preserves_isSome (acc : List (String × String)) (k k' v : String)
    (h : (dictGet acc k).isSome) : (dictGet (dictInsert acc k' v) k).isSome := by
  rw [dictGet_dictInsert]
  by_cases hk : k = k'
  · simp [hk]
  · simpa [hk] using h

theorem collect_preserves_key :
    ∀ (lines : List String) (st : Option (String × List String))
      (acc : List (String × String)) (k : String),
      (dictGet acc k).isSome → (dictGet (collectSections lines st acc) k).isSome := by
  intro lines
  induction lines with
  | nil =>
    intro st acc k h
    cases st with
    | none => exact h
    | some tb =>
      obtain ⟨t, rb⟩ := tb
      simp only [collectSections]
      exact dictInsert_preserves_isSome _ _ _ _ h
  | cons l ls ih =>
    intro st acc k h
    by_cases hL : isHeadingLine l
    · cases st with
      | none =>
        simp only [collectSections, if_pos hL]
        exact ih _ _ _ h
      | some tb =>
        obtain ⟨t, rb⟩ := tb
        simp only [collectSections, if_pos hL]
        exact ih _ _ _ (dictInsert_preserves_isSome _ _ _ _ h)
    · cases st with
      | none =>
        simp only [collectSections, if_neg hL]
        exact ih _ _ _ h
      | some tb =>
        obtain ⟨t, rb⟩ := tb
        simp only [collectSections, if_neg hL]
        exact ih _ _ _ h

theorem collect_pending_key :
    ∀ (lines : List String) (t : String) (rb : List String)
      (acc : List (String × String)),
      (dictGet (collectSections lines (some (t, rb)) acc)
        (pyLower (pyStrip t))).isSome := by
  intro lines
  induction lines with
  | nil =>
    intro t rb acc
    simp only [collectSections]
    rw [dictGet_dictInsert]
    simp
  | cons l ls ih =>
    intro t rb acc
    by_cases hL : isHeadingLine l
    · simp only [collectSections, if_pos hL]
      apply collect_preserves_key
      rw [dictGet_dictInsert]
      simp
    · simp only [collectSections, if_neg hL]
      exact ih _ _ _

theorem collect_heading_key :
    ∀ (lines : List String) (l : String) (st : Option (String × List String))
      (acc : List (String × String)),
      l ∈ lines → isHeadingLine l = true →
      (dictGet (collectSections lines st acc)
        (pyLower (pyStrip (headingGroup l)))).isSome := by
  intro lines
  induction lines with
  | nil =>
    intro l st acc hmem
    exact absurd hmem (List.not_mem_nil l)
  | cons x ls ih =>
    intro l st acc hmem hh
    rcases List.mem_cons.mp hmem with hx | hls
    · subst hx
      cases st with
      | none =>
        simp only [collectSections, if_pos hh]
        exact collect_pending_key _ _ _ _
      | some tb =>
        obtain ⟨t, rb⟩ := tb
        simp only [collectSections, if_pos hh]
        exact collect_pending_key _ _ _ _
    · by_cases hL : isHeadingLine x
      · cases st with
        | none =>
          simp only [collectSections, if_pos hL]
          exact ih _ _ _ hls hh
        | some tb =>
          obtain ⟨t, rb⟩ := tb
          simp only [collectSections, if_pos hL]
          exact ih _ _ _ hls hh
      · cases st with
        | none =>
          simp only [collectSections, if_neg hL]
          exact ih _ _ _ hls hh
        | some tb =>
          obtain ⟨t, rb⟩ := tb
          simp only [collectSections, if_neg hL]
          exact ih _ _ _ hls hh

/-! ## Helper lemmas: the match step -/

theorem bestFold_mem (ecl : String) :
    ∀ (l : List (String × String)) (bs : ℚ) (bm : Option (String × String))
      (m : String × String),
      (bestFold ecl l (bs, bm)).2 = some m → bm = some m ∨ m ∈ l := by
  intro l
  induction l with
  | nil =>
    intro bs bm m h
    exact Or.inl h
  | cons kv t ih =>
    intro bs bm m h
    simp only [bestFold] at h
    by_cases hc : bs < fuzzyScore ecl kv.1
    · rw [if_pos hc] at h
      rcases ih _ _ _ h with h' | h'
      · right
        rw [Option.some_inj.mp h']
        exact List.mem_cons_self _ _
      · right
        exact List.mem_cons_of_mem _ h'
    · rw [if_neg hc] at h
      rcases ih _ _ _ h with h' | h'
      · exact Or.inl h'
      · right
        exact List.mem_cons_of_mem _ h'

theorem matchSection_exact (cur : List (String × String)) (e v : String)
    (h : dictGet cur (pyLower e) = some v) : matchSection cur e = v := by
  simp only [matchSection]
  rw [h]

theorem matchSection_startsWith (cur : List (String × String)) (e : String)
    (hcur : ∀ p ∈ cur, pyStartsWith p.2 "## " = true) :
    pyStartsWith (matchSection cur e) "## " = true := by
  simp only [matchSection]
  cases h1 : dictGet cur (pyLower e) with
  | some v => exact hcur _ (dictGet_mem _ _ _ h1)
  | none =>
    cases h2 : dictGet cur (pyLower (pyStrip (stripParens e))) with
    | some v => exact hcur _ (dictGet_mem _ _ _ h2)
    | none =>
      rcases h3 : bestFold (pyLower (pyStrip (stripParens e))) cur (0, none) with ⟨bs, bm⟩
      cases bm with
      | none => exact placeholderChunk_startsWith _
      | some m =>
        show pyStartsWith
          (if 40 < bs then m.2 else placeholderChunk (pyStrip (stripParens e))) "## " = true
        by_cases hbs : (40 : ℚ) < bs
        · rw [if_pos hbs]
          have hm : (none : Option (String × String)) = some m ∨ m ∈ cur := by
            apply bestFold_mem _ cur 0 none m
            rw [h3]
          rcases hm with h | h
          · exact absurd h (by simp)
          · exact hcur _ h
        · rw [if_neg hbs]
          exact placeholderChunk_startsWith _

/-! ## Helper lemmas: the expected-title fold -/

theorem splitFold_get (cs : List (String × String)) :
    ∀ (es : List String) (acc : List (String × String)) (e : String),
      dictGet (es.foldl (fun a x => dictInsert a x (matchSection cs x)) acc) e =
        if e ∈ es then some (matchSection cs e) else dictGet acc e := by
  intro es
  induction es with
  | nil =>
    intro acc e
    simp
  | cons x t ih =>
    intro acc e
    simp only [List.foldl_cons]
    rw [ih]
    by_cases ht : e ∈ t
    · simp [ht]
    · by_cases hx : e = x
      · subst hx
        simp [ht, dictGet_dictInsert]
      · simp [ht, hx, dictGet_dictInsert]

theorem splitFold_length (cs : List (String × String)) :
    ∀ (es : List String) (acc : List (String × String)),
      es.Nodup → (∀ e ∈ es, dictGet acc e = none) →
      (es.foldl (fun a x => dictInsert a x (matchSection cs x)) acc).length =
        acc.length + es.length := by
  intro es
  induction es with
  | nil =>
    intro acc _ _
    simp
  | cons x t ih =>
    intro acc hnd hacc
    simp only [List.foldl_cons]
    have hx : dictGet acc x = none := hacc x (List.mem_cons_self _ _)
    have hlen : (dictInsert acc x (matchSection cs x)).length = acc.length + 1 := by
      rw [dictInsert_length, hx]
      simp
    have hnd' := (List.nodup_cons.mp hnd).2
    have hxt := (List.nodup_cons.mp hnd).1
    have hacc' : ∀ e ∈ t, dictGet (dictInsert acc x (matchSection cs x)) e = none := by
      intro e he
      rw [dictGet_dictInsert]
      have hne : e ≠ x := fun h => hxt (h ▸ he)
      rw [if_neg hne]
      exact hacc e (List.mem_cons_of_mem _ he)
    rw [ih _ hnd' hacc', hlen]
    simp [List.length_cons]
    omega

theorem splitFold_mem (cs : List (String × String)) :
    ∀ (es : List String) (acc : List (String × String)) (p : String × String),
      p ∈ es.foldl (fun a x => dictInsert a x (matchSection cs x)) acc →
      p ∈ acc ∨ ∃ e, p = (e, matchSection cs e) := by
  intro es
  induction es with
  | nil =>
    intro acc p hp
    exact Or.inl hp
  | cons x t ih =>
    intro acc p hp
    simp only [List.foldl_cons] at hp
    rcases ih _ _ hp with h | h
    · rcases mem_dictInsert _ _ _ _ h with h' | h'
      · exact Or.inl h'
      · exact Or.inr ⟨x, h'⟩
    · exact Or.inr h

/-! ## Helper lemmas: the planner and slide scans -/

theorem structScan_title (ct : String) :
    ∀ (lines : List String) (title : String) (items : List String) (flag : Bool),
      (∀ l ∈ lines, pyStartsWith (pyStrip l) "TITLE:" = false) →
      (structScan ct lines title items flag).1 = title := by
  intro lines
  induction lines with
  | nil =>
    intro title items flag _
    rfl
  | cons raw ls ih =>
    intro title items flag h
    have hraw : pyStartsWith (pyStrip raw) "TITLE:" = false :=
      h raw (List.mem_cons_self _ _)
    have hls : ∀ l ∈ ls, pyStartsWith (pyStrip l) "TITLE:" = false :=
      fun l hl => h l (List.mem_cons_of_mem _ hl)
    simp only [structScan]
    rw [if_neg (by simp [hraw])]
    split
    · exact ih _ _ _ hls
    · split
      · split
        · exact ih _ _ _ hls
        · exact ih _ _ _ hls
      · exact ih _ _ _ hls

theorem slideScan_title :
    ∀ (lines : List String) (st : SlideParse) (flag : Bool),
      (∀ l ∈ lines, pyStartsWith (pyStrip l) "TITLE:" = false) →
      (slideScan lines st flag).title = st.title := by
  intro lines
  induction lines with
  | nil =>
    intro st flag _
    rfl
  | cons raw ls ih =>
    intro st flag h
    have hraw : pyStartsWith (pyStrip raw) "TITLE:" = false :=
      h raw (List.mem_cons_self _ _)
    have hls : ∀ l ∈ ls, pyStartsWith (pyStrip l) "TITLE:" = false :=
      fun l hl => h l (List.mem_cons_of_mem _ hl)
    simp only [slideScan]
    split
    · exact ih _ _ hls
    · rw [if_neg (by simp [hraw])]
      split
      · exact ih _ _ hls
      · split
        · exact ih _ _ hls
        · split
          · split
            · exact ih _ _ hls
            · exact ih _ _ hls
          · exact ih _ _ hls

/-! ## Helper lemmas: evaluating the fuzzy step on a one-candidate map -/

theorem bestFold_single (ecl k v : String) :
    bestFold ecl [(k, v)] (0, none) =
      if (0 : ℚ) < fuzzyScore ecl k then (fuzzyScore ecl k, some (k, v))
      else (0, none) := by
  simp only [bestFold]

theorem matchSection_fuzzy_single (k v e : String)
    (h1 : dictGet [(k, v)] (pyLower e) = none)
    (h2 : dictGet [(k, v)] (pyLower (pyStrip (stripParens e))) = none) :
    matchSection [(k, v)] e =
      if 40 < fuzzyScore (pyLower (pyStrip (stripParens e))) k then v
      else placeholderChunk (pyStrip (stripParens e)) := by
  simp only [matchSection, h1, h2]
  rw [bestFold_single]
  by_cases h0 : (0 : ℚ) < fuzzyScore (pyLower (pyStrip (stripParens e))) k
  · rw [if_pos h0]
  · rw [if_neg h0]
    have h40 : ¬ (40 : ℚ) < fuzzyScore (pyLower (pyStrip (stripParens e))) k :=
      fun h => h0 (lt_trans (by norm_num) h)
    rw [if_neg h40]

theorem split_single (doc e : String) :
    split_markdown_by_sections doc [e] =
      [(e, matchSection (currentSections doc) e)] := rfl

/-! ## Helper lemmas: the working map is the dict-fold of the heading
sequence, and a lookup returns the last occurrence of a key -/

theorem collectBlocksList_acc :
    ∀ (lines : List String) (st : Option (String × List String))
      (acc : List (String × String)),
      collectBlocksList lines st acc = acc ++ collectBlocksList lines st [] := by
  intro lines
  induction lines with
  | nil =>
    intro st acc
    cases st with
    | none => simp [collectBlocksList]
    | some tb =>
      obtain ⟨t, rb⟩ := tb
      simp [collectBlocksList]
  | cons l ls ih =>
    intro st acc
    by_cases hL : isHeadingLine l
    · cases st with
      | none =>
        simp only [collectBlocksList, if_pos hL]
        exact ih _ _
      | some tb =>
        obtain ⟨t, rb⟩ := tb
        simp only [collectBlocksList, if_pos hL]
        rw [ih _ (acc ++ _), ih _ ([] ++ _)]
        simp
    · cases st with
      | none =>
        simp only [collectBlocksList, if_neg hL]
        exact ih _ _
      | some tb =>
        obtain ⟨t, rb⟩ := tb
        simp only [collectBlocksList, if_neg hL]
        exact ih _ _

theorem collect_eq_foldInsert :
    ∀ (lines : List String) (st : Option (String × List String))
      (acc : List (String × String)),
      collectSections lines st acc =
        (collectBlocksList lines st []).foldl (fun a p => dictInsert a p.1 p.2) acc := by
  intro lines
  induction lines with
  | nil =>
    intro st acc
    cases st with
    | none => simp [collectSections, collectBlocksList]
    | some tb =>
      obtain ⟨t, rb⟩ := tb
      simp [collectSections, collectBlocksList]
  | cons l ls ih =>
    intro st acc
    by_cases hL : isHeadingLine l
    · cases st with
      | none =>
        simp only [collectSections, collectBlocksList, if_pos hL]
        exact ih _ _
      | some tb =>
        obtain ⟨t, rb⟩ := tb
        simp only [collectSections, collectBlocksList, if_pos hL, List.nil_append]
        rw [ih, collectBlocksList_acc ls (some (headingGroup l, []))
            [(pyLower (pyStrip t), mkChunk t rb.reverse)], List.foldl_append]
        rfl
    · cases st with
      | none =>
        simp only [collectSections, collectBlocksList, if_neg hL]
        exact ih _ _
      | some tb =>
        obtain ⟨t, rb⟩ := tb
        simp only [collectSections, collectBlocksList, if_neg hL]
        exact ih _ _

theorem dictGet_append (l1 l2 : List (String × String)) (q : String) :
    dictGet (l1 ++ l2) q =
      match dictGet l1 q with
      | some v => some v
      | none => dictGet l2 q := by
  induction l1 with
  | nil => simp [dictGet]
  | cons p t ih =>
    obtain ⟨k', v'⟩ := p
    by_cases hk : k' = q
    · simp [dictGet, hk]
    · simp [dictGet, hk, ih]

theorem foldInsert_get :
    ∀ (l : List (String × String)) (acc : List (String × String)) (q : String),
      dictGet (l.foldl (fun a p => dictInsert a p.1 p.2) acc) q =
        match dictGet l.reverse q with
        | some v => some v
        | none => dictGet acc q := by
  intro l
  induction l with
  | nil =>
    intro acc q
    simp [dictGet]
  | cons p t ih =>
    intro acc q
    obtain ⟨pk, pv⟩ := p
    simp only [List.foldl_cons, List.reverse_cons]
    rw [ih, dictGet_append]
    cases h : dictGet t.reverse q with
    | some v => rfl
    | none =>
      rw [dictGet_dictInsert]
      by_cases hq : q = pk
      · subst hq
        simp [dictGet]
      · have hq' : ¬ pk = q := fun e => hq e.symm
        simp [dictGet, hq, hq']

theorem currentSections_last (doc : String) (q : String) :
    dictGet (currentSections doc) q = dictGet (headingBlocks doc).reverse q := by
  have h : currentSections doc =
      (headingBlocks doc).foldl (fun a p => dictInsert a p.1 p.2) [] :=
    collect_eq_foldInsert (pySplitLines doc) none []
  rw [h, foldInsert_get]
  cases h2 : dictGet (headingBlocks doc).reverse q with
  | some v => rfl
  | none => rfl

theorem dictGet_none_of_keys (l : List (String × String)) (k : String)
    (h : ∀ q ∈ l, q.1 ≠ k) : dictGet l k = none := by
  induction l with
  | nil => rfl
  | cons p t ih =>
    obtain ⟨k', v'⟩ := p
    have hk : k' ≠ k := h (k', v') (List.mem_cons_self _ _)
    simp only [dictGet, if_neg hk]
    exact ih (fun q hq => h q (List.mem_cons_of_mem _ hq))

theorem dictGet_reverse_last (pre mid post : List (String × String))
    (k c1 c2 : String) (hpost : ∀ q ∈ post, q.1 ≠ k) :
    dictGet (pre ++ (k, c1) :: mid ++ (k, c2) :: post).reverse k = some c2 := by
  have hshape : (pre ++ (k, c1) :: mid ++ (k, c2) :: post).reverse =
      post.reverse ++ (k, c2) :: (mid.reverse ++ (k, c1) :: pre.reverse) := by
    simp [List.reverse_append]
  rw [hshape, dictGet_append,
    dictGet_none_of_keys post.reverse k (fun q hq => hpost q (List.mem_reverse.mp hq))]
  simp [dictGet]

/-! ## Helper lemmas: the core and fuzzy branches of the match step, and
key uniqueness of dict-built association lists -/

theorem matchSection_core (cur : List (String × String)) (e v : String)
    (h1 : dictGet cur (pyLower e) = none)
    (h2 : dictGet cur (pyLower (pyStrip (stripParens e))) = some v) :
    matchSection cur e = v := by
  simp only [matchSection, h1, h2]

theorem matchSection_fuzzy_accept (cur : List (String × String)) (e : String)
    (bs : ℚ) (m : String × String)
    (h1 : dictGet cur (pyLower e) = none)
    (h2 : dictGet cur (pyLower (pyStrip (stripParens e))) = none)
    (h3 : bestFold (pyLower (pyStrip (stripParens e))) cur (0, none) = (bs, some m))
    (h4 : 40 < bs) :
    matchSection cur e = m.2 := by
  simp only [matchSection, h1, h2]
  rw [h3]
  show (if 40 < bs then m.2 else placeholderChunk (pyStrip (stripParens e))) = m.2
  rw [if_pos h4]

theorem dictInsert_keys_nodup (l : List (String × String)) (k v : String)
    (h : (l.map Prod.fst).Nodup) : ((dictInsert l k v).map Prod.fst).Nodup := by
  induction l with
  | nil => simp [dictInsert]
  | cons p t ih =>
    obtain ⟨k', v'⟩ := p
    simp only [List.map_cons, List.nodup_cons] at h
    by_cases hk : k' = k
    · simp only [dictInsert, if_pos hk, List.map_cons, List.nodup_cons]
      exact h
    · simp only [dictInsert, if_neg hk, List.map_cons, List.nodup_cons]
      constructor
      · intro hmem
        rcases List.mem_map.mp hmem with ⟨q, hq, hq1⟩
        rcases mem_dictInsert _ _ _ _ hq with hq' | hq'
        · exact h.1 (List.mem_map.mpr ⟨q, hq', hq1⟩)
        · rw [hq'] at hq1
          exact hk hq1.symm
      · exact ih h.2

theorem foldInsert_keys_nodup :
    ∀ (l : List (String × String)) (acc : List (String × String)),
      (acc.map Prod.fst).Nodup →
      ((l.foldl (fun a p => dictInsert a p.1 p.2) acc).map Prod.fst).Nodup := by
  intro l
  induction l with
  | nil =>
    intro acc h
    exact h
  | cons p t ih =>
    intro acc h
    simp only [List.foldl_cons]
    exact ih _ (dictInsert_keys_nodup _ _ _ h)

theorem currentSections_keys_nodup (doc : String) :
    ((currentSections doc).map Prod.fst).Nodup := by
  have h : currentSections doc =
      (headingBlocks doc).foldl (fun a p => dictInsert a p.1 p.2) [] :=
    collect_eq_foldInsert (pySplitLines doc) none []
  rw [h]
  exact foldInsert_keys_nodup _ [] (by simp)

theorem mem_dictGet_of_nodup (l : List (String × String)) (k v : String)
    (hnd : (l.map Prod.fst).Nodup) (hmem : (k, v) ∈ l) : dictGet l k = some v := by
  induction l with
  | nil => exact absurd hmem (List.not_mem_nil _)
  | cons p t ih =>
    obtain ⟨k', v'⟩ := p
    simp only [List.map_cons, List.nodup_cons] at hnd
    rcases List.mem_cons.mp hmem with h | h
    · injection h with hk hv
      subst hk
      subst hv
      simp [dictGet]
    · have hk : k' ≠ k := by
        intro he
        subst he
        exact hnd.1 (List.mem_map.mpr ⟨(k', v), h, rfl⟩)
      simp only [dictGet, if_neg hk]
      exact ih hnd.2 h

/-! ## The claims -/

/-- C1 (counterexample): the claim quantifies over every non-empty list of
expected titles, but the result is a Python dict keyed by the expected title,
so a duplicated expected title collapses to one entry: on the empty document
and the expected list `["A", "A"]` the splitter returns 1 entry, not 2. -/
theorem C1_counterexample :
    ¬ ((split_markdown_by_sections "" ["A", "A"]).length = 2) := by decide

/-- C1 (amended): for every Markdown document and every non-empty list of
pairwise-distinct expected section titles, `split_markdown_by_sections`
returns a mapping with exactly one entry per expected title, and every value
is a non-empty string beginning with `"## "` (a matched chunk or the fixed
placeholder chunk). -/
theorem C1_split_completeness (doc : String) (es : List String)
    (_hne : es ≠ []) (hnd : es.Nodup) :
    (split_markdown_by_sections doc es).length = es.length ∧
    ∀ p ∈ split_markdown_by_sections doc es,
      pyStartsWith p.2 "## " = true ∧ p.2 ≠ "" := by
  constructor
  · unfold split_markdown_by_sections
    rw [splitFold_length _ es [] hnd (fun e _ => rfl)]
    simp
  · intro p hp
    unfold split_markdown_by_sections at hp
    rcases splitFold_mem _ es [] p hp with h | ⟨e, he⟩
    · exact absurd h (List.not_mem_nil p)
    · have hs : pyStartsWith p.2 "## " = true := by
        rw [he]
        exact matchSection_startsWith _ _ (currentSections_values doc)
      exact ⟨hs, startsHH_ne_empty _ hs⟩

/-- C1 (witness): both conjuncts of the amended claim at a concrete document
and a concrete duplicate-free two-title list. -/
theorem C1_witness :
    (split_markdown_by_sections "## Alpha\nbody" ["Alpha", "Beta"]).length = 2 :=
  (C1_split_completeness "## Alpha\nbody" ["Alpha", "Beta"] (by decide) (by decide)).1

/-- C2: if the document has a level-2 heading whose stripped, lowercased text
equals the lowercased expected title then the working map has an entry under
exactly that key, and the splitter assigns that entry — the exact match —
to the expected title, never a fuzzy alternative, regardless of any other
candidate's score. -/
theorem C2_exact_match_precedence (doc expected : String) (es : List String)
    (hmem : expected ∈ es) (l : String) (hl : l ∈ pySplitLines doc)
    (hh : isHeadingLine l = true)
    (hk : pyLower (pyStrip (headingGroup l)) = pyLower expected) :
    ∃ v, dictGet (currentSections doc) (pyLower expected) = some v ∧
      dictGet (split_markdown_by_sections doc es) expected = some v := by
  have hs : (dictGet (currentSections doc) (pyLower expected)).isSome := by
    rw [← hk]
    exact collect_heading_key _ l none [] hl hh
  obtain ⟨v, hv⟩ := Option.isSome_iff_exists.mp hs
  refine ⟨v, hv, ?_⟩
  unfold split_markdown_by_sections
  rw [splitFold_get, if_pos hmem, matchSection_exact _ _ _ hv]

/-- C2 (witness): the exact-match precedence at a concrete document whose
heading `## Budget Overview` matches the expected title `budget overview`
case-insensitively. -/
theorem C2_witness :
    ∃ v, dictGet (currentSections "## Budget Overview\ndetails")
        (pyLower "budget overview") = some v ∧
      dictGet (split_markdown_by_sections "## Budget Overview\ndetails"
        ["budget overview"]) "budget overview" = some v :=
  C2_exact_match_precedence "## Budget Overview\ndetails" "budget overview"
    ["budget overview"] (by decide) "## Budget Overview" (by decide) (by decide)
    (by decide)

/-- C3: with no substring relation in either direction, the fuzzy score is
exactly the spec's word-overlap formula
`|common| / max(|core words|, |candidate words|) * 60`; and at the threshold,
a document whose only heading shares 2 of 5 core words (score 24 ≤ 40) gets
the placeholder chunk while one sharing 4 of 5 (score 48 > 40) is matched. -/
theorem C3_fuzzy_scoring (core cand : String)
    (h1 : pyIn cand core = false) (h2 : pyIn core cand = false) :
    fuzzyScore core cand = wordOverlapScoreSpec core cand ∧
    split_markdown_by_sections "## alpha beta one two three\nsome content here"
        ["alpha beta gamma delta epsilon"] =
      [("alpha beta gamma delta epsilon",
        "## alpha beta gamma delta epsilon\n\n*Content for this section was not generated.*")] ∧
    split_markdown_by_sections "## alpha beta gamma delta omega\nreal content"
        ["alpha beta gamma delta epsilon"] =
      [("alpha beta gamma delta epsilon",
        "## alpha beta gamma delta omega\n\nreal content")] := by
  have hcore : pyStrip (stripParens "alpha beta gamma delta epsilon") =
      "alpha beta gamma delta epsilon" := by decide
  have hlow : pyLower "alpha beta gamma delta epsilon" =
      "alpha beta gamma delta epsilon" := by decide
  refine ⟨?_, ?_, ?_⟩
  · unfold fuzzyScore wordOverlapScoreSpec
    simp only [h1, h2, Bool.false_eq_true, if_false]
    by_cases hc : 0 < commonWordCount core cand
    · rw [if_pos hc]
    · rw [if_neg hc]
      rw [Nat.eq_zero_of_not_pos hc]
      simp
  · have hcur : currentSections "## alpha beta one two three\nsome content here" =
        [("alpha beta one two three",
          "## alpha beta one two three\n\nsome content here")] := by decide
    have hs24 : fuzzyScore "alpha beta gamma delta epsilon" "alpha beta one two three" =
        24 := by
      unfold fuzzyScore
      simp only
        [show pyIn "alpha beta one two three" "alpha beta gamma delta epsilon" = false from
          by decide,
         show pyIn "alpha beta gamma delta epsilon" "alpha beta one two three" = false from
          by decide,
         Bool.false_eq_true, if_false]
      rw [show commonWordCount "alpha beta gamma delta epsilon" "alpha beta one two three" =
            2 from by decide,
          show (wordSet "alpha beta gamma delta epsilon").length = 5 from by decide,
          show (wordSet "alpha beta one two three").length = 5 from by decide]
      norm_num
    rw [split_single, hcur,
      matchSection_fuzzy_single _ _ _ (by decide) (by decide), hcore, hlow, hs24,
      if_neg (by norm_num : ¬ (40 : ℚ) < 24)]
    decide
  · have hcur : currentSections "## alpha beta gamma delta omega\nreal content" =
        [("alpha beta gamma delta omega",
          "## alpha beta gamma delta omega\n\nreal content")] := by decide
    have hs48 : fuzzyScore "alpha beta gamma delta epsilon" "alpha beta gamma delta omega" =
        48 := by
      unfold fuzzyScore
      simp only
        [show pyIn "alpha beta gamma delta omega" "alpha beta gamma delta epsilon" = false from
          by decide,
         show pyIn "alpha beta gamma delta epsilon" "alpha beta gamma delta omega" = false from
          by decide,
         Bool.false_eq_true, if_false]
      rw [show commonWordCount "alpha beta gamma delta epsilon" "alpha beta gamma delta omega" =
            4 from by decide,
          show (wordSet "alpha beta gamma delta epsilon").length = 5 from by decide,
          show (wordSet "alpha beta gamma delta omega").length = 5 from by decide]
      norm_num
    rw [split_single, hcur,
      matchSection_fuzzy_single _ _ _ (by decide) (by decide), hcore, hlow, hs48,
      if_pos (by norm_num : (40 : ℚ) < 48)]

/-- C3 (witness): the scoring formula at the concrete 2-of-5-words candidate
(no substring relation either way). -/
theorem C3_witness :
    fuzzyScore "alpha beta gamma delta epsilon" "alpha beta one two three" =
      wordOverlapScoreSpec "alpha beta gamma delta epsilon" "alpha beta one two three" :=
  (C3_fuzzy_scoring "alpha beta gamma delta epsilon" "alpha beta one two three"
    (by decide) (by decide)).1

/-- C4: `_parse_structure_response` is total (the embedding is a total
function of its input, as is the Python code, which uses only total string
operations); with no `TITLE:` line the result title is the fixed default
selected by `content_type`; with no parsed items the result items are the
fixed 3-item default; and on the concrete garbage input with content type
`slides` it returns `Untitled Presentation` with
`["Opening", "Main Content", "Closing"]`. -/
theorem C4_planner_fallback (text content_type : String)
    (h : ∀ l ∈ pySplitLines text, pyStartsWith (pyStrip l) "TITLE:" = false) :
    (parse_structure_response text content_type).title = defaultTitle content_type ∧
    (∀ t ct, (structScan ct (pySplitLines t) "" [] false).2 = [] →
      (parse_structure_response t ct).items = defaultItems ct) ∧
    parse_structure_response "garbage text with no markers" "slides" =
      ⟨"Untitled Presentation", ["Opening", "Main Content", "Closing"]⟩ := by
  refine ⟨?_, ?_, by decide⟩
  · simp only [parse_structure_response]
    rw [structScan_title content_type (pySplitLines text) "" [] false h]
    simp
  · intro t ct hit
    simp only [parse_structure_response]
    rw [hit]
    simp

/-- C4 (witness): the default title at the concrete garbage input. -/
theorem C4_witness :
    (parse_structure_response "garbage text with no markers" "slides").title =
      defaultTitle "slides" :=
  (C4_planner_fallback "garbage text with no markers" "slides" (by decide)).1

/-- C5 (code bug): the legacy non-Markdown path of `create_docx` does not
succeed on an empty section title — `doc.add_heading(section.title, level=1)`
produces a heading with no runs when the title is the empty string, and the
unguarded `heading.runs[0]` (doc_generator.py line 315) raises `IndexError`;
with a non-empty title the same legacy path succeeds.  (The Markdown path
guards the same access, line 186.) -/
theorem C5_legacy_empty_title_raises :
    create_docx_body [("", "")] =
      Except.error "IndexError: list index out of range" ∧
    create_docx_body [("T", "")] =
      Except.ok [Block.heading 1 "T", Block.legacyPara "No content generated yet."] :=
  ⟨rfl, rfl⟩

/-- C6 (counterexample): with the API key missing, `plan_presentation_structure`
returns only the error sentinel — the result dict has no title and no item
list, contradicting the claim that every failure mode still yields a
non-empty title and item list. -/
theorem C6_counterexample :
    (plan_presentation_structure none (Except.ok "")).title = none ∧
    (plan_presentation_structure none (Except.ok "")).items = none :=
  ⟨rfl, rfl⟩

/-- C6 (amended): when the API key is present and the model call raises any
exception (rate-limit errors included), both planners return a dictionary
with a non-empty fallback title, a non-empty fallback item list, and the
exception message as the error value; when the API key is missing they
return only the no-API-key sentinel, with no title and no items. -/
theorem C6_planner_failure_shape (k e : String) :
    plan_presentation_structure (some k) (Except.error e) =
      ⟨some "Untitled Presentation",
       some ["Opening Slide", "Main Content", "Key Takeaways", "Closing"], some e⟩ ∧
    plan_document_structure (some k) (Except.error e) =
      ⟨some "Untitled Document",
       some ["Introduction", "Background", "Main Discussion", "Analysis", "Conclusion"],
       some e⟩ ∧
    plan_presentation_structure none (Except.ok "") =
      ⟨none, none, some no_api_key_message⟩ ∧
    plan_document_structure none (Except.ok "") =
      ⟨none, none, some no_api_key_message⟩ :=
  ⟨rfl, rfl, rfl, rfl⟩

/-- C7: `parse_markdown_line` on
`"**bold** and *italic* and `code` and [link](http://x)"` produces exactly
four styled runs — bold, italic, code, link — in the original order,
interleaved with the plain gaps, and no styled run's visible text contains a
residual marker character. -/
theorem C7_inline_spans :
    parse_markdown_line "**bold** and *italic* and `code` and [link](http://x)" =
      [Run.bold "bold", Run.plain " and ", Run.italic "italic", Run.plain " and ",
       Run.code "code", Run.plain " and ", Run.link "link"] ∧
    (parse_markdown_line "**bold** and *italic* and `code` and [link](http://x)").filter
        isStyled =
      [Run.bold "bold", Run.italic "italic", Run.code "code", Run.link "link"] ∧
    ((parse_markdown_line "**bold** and *italic* and `code` and [link](http://x)").filter
        isStyled).all (fun r => !hasMarkerChar (runText r)) = true := by
  refine ⟨by decide, by decide, by decide⟩

/-- C8: in `create_docx`'s Markdown path, a 2-column table block of header,
separator and 2 data rows renders to exactly one table whose single header
row has bold cells and whose data part has exactly the 2 data rows; the
separator row is discarded. -/
theorem C8_table_rendering :
    create_docx_body
        [("S", "## Table Section\n| A | B |\n| --- | --- |\n| 1 | 2 |\n| 3 | 4 |")] =
      Except.ok [Block.heading 1 "Table Section",
        Block.table [⟨"A", true⟩, ⟨"B", true⟩] [["1", "2"], ["3", "4"]],
        Block.spacer] ∧
    (processMdLines 4 ["| A | B |", "| --- | --- |", "| 1 | 2 |", "| 3 | 4 |"]).countP
        isTableBlock = 1 ∧
    processMdLines 4 ["| A | B |", "| --- | --- |", "| 1 | 2 |", "| 3 | 4 |"] =
      [Block.table [⟨"A", true⟩, ⟨"B", true⟩] [["1", "2"], ["3", "4"]], Block.spacer] := by
  refine ⟨rfl, by decide, by decide⟩

/-- C9: for every document whose heading sequence contains two occurrences of
the same lowercased stripped heading key `k` (chunks `c1` then `c2`, with no
later occurrence of `k`), the working map's entry for `k` is the last
occurrence's chunk `c2`; the earlier chunk `c1` is dropped (it is not the
entry for `k`); for every key the working map agrees with a last-occurrence
lookup of the heading sequence; and every expected title that matches `k` —
exactly, by core, or fuzzily — receives `c2`, the content that followed the
last occurrence. -/
theorem C9_duplicate_headings (doc k c1 c2 : String)
    (pre mid post : List (String × String))
    (hblocks : headingBlocks doc = pre ++ (k, c1) :: mid ++ (k, c2) :: post)
    (hpost : ∀ q ∈ post, q.1 ≠ k) :
    dictGet (currentSections doc) k = some c2 ∧
    (c1 ≠ c2 → (k, c1) ∉ currentSections doc) ∧
    (∀ q, dictGet (currentSections doc) q = dictGet (headingBlocks doc).reverse q) ∧
    (∀ es e, e ∈ es → pyLower e = k →
      dictGet (split_markdown_by_sections doc es) e = some c2) ∧
    (∀ es e, e ∈ es → dictGet (currentSections doc) (pyLower e) = none →
      pyLower (pyStrip (stripParens e)) = k →
      dictGet (split_markdown_by_sections doc es) e = some c2) ∧
    (∀ es e (bs : ℚ) (v : String), e ∈ es →
      dictGet (currentSections doc) (pyLower e) = none →
      dictGet (currentSections doc) (pyLower (pyStrip (stripParens e))) = none →
      bestFold (pyLower (pyStrip (stripParens e))) (currentSections doc) (0, none) =
        (bs, some (k, v)) →
      40 < bs →
      dictGet (split_markdown_by_sections doc es) e = some c2) := by
  have hk : dictGet (currentSections doc) k = some c2 := by
    rw [currentSections_last, hblocks]
    exact dictGet_reverse_last pre mid post k c1 c2 hpost
  refine ⟨hk, ?_, currentSections_last doc, ?_, ?_, ?_⟩
  · intro hne hmem
    have h := mem_dictGet_of_nodup _ _ _ (currentSections_keys_nodup doc) hmem
    rw [hk] at h
    exact hne (Option.some_inj.mp h).symm
  · intro es e hmem he
    unfold split_markdown_by_sections
    rw [splitFold_get, if_pos hmem,
      matchSection_exact _ _ _ (by rw [he]; exact hk)]
  · intro es e hmem h1 h2
    unfold split_markdown_by_sections
    rw [splitFold_get, if_pos hmem,
      matchSection_core _ _ _ h1 (by rw [h2]; exact hk)]
  · intro es e bs v hmem h1 h2 h3 h4
    have hmem' : (k, v) ∈ currentSections doc := by
      have hb := bestFold_mem (pyLower (pyStrip (stripParens e)))
        (currentSections doc) 0 none (k, v) (by rw [h3])
      rcases hb with h | h
      · exact absurd h (by simp)
      · exact h
    have hv : dictGet (currentSections doc) k = some v :=
      mem_dictGet_of_nodup _ _ _ (currentSections_keys_nodup doc) hmem'
    have hvc : v = c2 := by
      rw [hv] at hk
      exact Option.some_inj.mp hk
    unfold split_markdown_by_sections
    rw [splitFold_get, if_pos hmem,
      matchSection_fuzzy_accept _ _ _ _ h1 h2 h3 h4]
    rw [show ((k, v) : String × String).2 = v from rfl, hvc]

/-- C9 (witness): the duplicate-heading hypotheses at a concrete document
with two `## Alpha` headings, and the exact-match conclusion handing the
expected title the last occurrence's content. -/
theorem C9_witness :
    dictGet (currentSections "## Alpha\nfirst\n## Alpha\nsecond") "alpha" =
      some "## Alpha\n\nsecond" ∧
    dictGet (split_markdown_by_sections "## Alpha\nfirst\n## Alpha\nsecond"
      ["Alpha"]) "Alpha" = some "## Alpha\n\nsecond" := by
  have h := C9_duplicate_headings "## Alpha\nfirst\n## Alpha\nsecond" "alpha"
    "## Alpha\n\nfirst" "## Alpha\n\nsecond" [] [] [] (by decide)
    (by intro q hq; exact absurd hq (List.not_mem_nil q))
  exact ⟨h.1, h.2.2.2.1 ["Alpha"] "Alpha" (by decide) (by decide)⟩

/-- C10: in `create_pptx`, a section whose content has no `TITLE:` line
yields an empty parsed title and the slide's title textbox gets the section's
stored title; the parsed title is used only when it is non-empty. -/
theorem C10_slide_title_fallback (section_title content : String)
    (h : ∀ l ∈ pySplitLines content, pyStartsWith (pyStrip l) "TITLE:" = false) :
    (make_slide section_title content).title = section_title ∧
    ∀ t c, (parse_slide_content c).title ≠ "" →
      (make_slide t c).title = (parse_slide_content c).title := by
  constructor
  · have hp : (parse_slide_content content).title = "" := by
      by_cases hc : content = ""
      · simp [parse_slide_content, hc]
      · unfold parse_slide_content
        rw [if_neg hc]
        exact slideScan_title (pySplitLines content) ⟨"", [], ""⟩ false h
    simp only [make_slide]
    simp [hp]
  · intro t c hnz
    simp only [make_slide]
    simp [hnz]

/-- C10 (witness): the stored-title fallback at a concrete section content
with no `TITLE:` line. -/
theorem C10_witness :
    (make_slide "Stored Title" "CONTENT:\n- point").title = "Stored Title" :=
  (C10_slide_title_fallback "Stored Title" "CONTENT:\n- point" (by decide)).1

end Flux
